import Mathlib

/-!
Verification of the gdal-drivers MVT geometry decoder (mvt.cpp) and the
blending engine (blender.cpp), as a shallow embedding: the command stream is
a list of unsigned integers, the stateful reader is explicit state passing,
C++ exceptions are `Except` errors, and `std::uint32_t` arithmetic is `Nat`
with reduction modulo `2 ^ 32` where the source can overflow.
-/

set_option autoImplicit false

namespace GdalDrivers

/-! ### Coordinate transform (`Trafo`, mvt.cpp lines 32-65)

The constructor computes a shift and a scale from the optional target extents;
the accessors `x`/`y` as compiled return the raw grid value (the affine branch
is inside `#if 0`).  Doubles are modelled by `ℚ`. -/

structure Extents2 where
  llx : ℚ
  lly : ℚ
  urx : ℚ
  ury : ℚ
deriving DecidableEq, Repr

structure Trafo where
  shiftX : ℚ
  shiftY : ℚ
  scaleW : ℚ
  scaleH : ℚ
deriving DecidableEq, Repr

/-- `Trafo::Trafo(double extent, const boost::optional<math::Extents2>&)`:
with extents, shift is the upper-left corner and scale is the extents size
divided by `extent` (negated in Y); without, shift is `(0, 1)` and scale is
`1 / extent` in both axes. -/
def Trafo.make (extent : ℚ) (extents : Option Extents2) : Trafo :=
  match extents with
  | some e =>
      { shiftX := e.llx
        shiftY := e.ury
        scaleW := (e.urx - e.llx) / extent
        scaleH := (e.ury - e.lly) / (-extent) }
  | none =>
      { shiftX := 0
        shiftY := 1
        scaleW := 1 / extent
        scaleH := 1 / extent }

/-- `Trafo::x` as compiled: `return value;`. -/
def Trafo.x (_t : Trafo) (value : Nat) : ℚ := value

/-- `Trafo::y` as compiled: `return value;`. -/
def Trafo.y (_t : Trafo) (value : Nat) : ℚ := value

/-! ### Command-stream reader (`GeometryReader`, mvt.cpp lines 136-222) -/

/-- The decode errors thrown by the reader and the count checks
(`std::runtime_error` with distinct messages in the source; the spec's
taxonomy names them StreamUnderrun / UnexpectedOpcode / InvalidCount). -/
inductive GErr where
  | streamUnderrun : GErr
  | unexpectedOpcode (got expected : Nat) : GErr
  | invalidCount (count : Nat) : GErr
deriving DecidableEq, Repr

/-- `GeometryReader::Command`: opcode in the low 3 bits, count in the rest. -/
structure Command where
  type : Nat
  count : Nat
deriving DecidableEq, Repr

def Command.ofRaw (raw : Nat) : Command :=
  ⟨raw &&& 0x7, raw >>> 3⟩

def opMoveTo : Nat := 1
def opLineTo : Nat := 2
def opClosePath : Nat := 7

/-- `GeometryReader::command(type)`: fails past the end of input, decodes one
raw integer, fails if the decoded opcode is not the expected one. -/
def command (expected : Nat) : List Nat → Except GErr (Command × List Nat)
  | [] => .error .streamUnderrun
  | raw :: rest =>
      let c := Command.ofRaw raw
      if c.type ≠ expected then .error (.unexpectedOpcode c.type expected)
      else .ok (c, rest)

/-- `Cursor`: two `std::uint32_t`, zero initialized. -/
structure Cursor where
  x : Nat
  y : Nat
deriving DecidableEq, Repr

def Cursor.init : Cursor := ⟨0, 0⟩

/-- `std::uint32_t` addition wraps. -/
def uint32 (n : Nat) : Nat := n % 2 ^ 32

def applyShift (cur : Cursor) (d : Nat × Nat) : Cursor :=
  ⟨uint32 (cur.x + d.1), uint32 (cur.y + d.2)⟩

/-- `GeometryReader::shift(cursor)`: consumes two integers, adding them to the
cursor, and fails with the underrun error if fewer than two remain. -/
def shift (cur : Cursor) : List Nat → Except GErr (Cursor × List Nat)
  | [] => .error .streamUnderrun
  | [_] => .error .streamUnderrun
  | dx :: dy :: rest => .ok (applyShift cur (dx, dy), rest)

/-- `checkNonzero`: rejects a zero count. -/
def checkNonzero (cmd : Command) : Except GErr Command :=
  if cmd.count = 0 then .error (.invalidCount cmd.count) else .ok cmd

/-- `checkSingle`: rejects any count other than one. -/
def checkSingle (cmd : Command) : Except GErr Command :=
  if cmd.count = 1 then .ok cmd else .error (.invalidCount cmd.count)

/-! ### Geometry values -/

structure Point where
  x : ℚ
  y : ℚ
deriving DecidableEq, Repr

def mkPoint (t : Trafo) (cur : Cursor) : Point :=
  ⟨t.x cur.x, t.y cur.y⟩

abbrev Ring := List Point
abbrev Polygon := List Ring

inductive Geometry where
  | point (p : Point)
  | multiPoint (ps : List Point)
  | lineString (ps : List Point)
  | multiLineString (ls : List (List Point))
  | polygon (p : Polygon)
  | multiPolygon (ps : List Polygon)
deriving DecidableEq, Repr

/-! ### Geometry builders (mvt.cpp lines 224-350) -/

/-- The `while (count--) { gr.shift(cur); add point; }` loop shared by the
multi-point branch of `points` and the lineTo part of `singleLineString`. -/
def shiftLoop (t : Trafo) : Nat → Cursor → List Nat →
    Except GErr (List Point × Cursor × List Nat)
  | 0, cur, s => .ok ([], cur, s)
  | n + 1, cur, s =>
      match shift cur s with
      | .error e => .error e
      | .ok (cur1, s1) =>
          match shiftLoop t n cur1 s1 with
          | .error e => .error e
          | .ok (ps, cur2, s2) => .ok (mkPoint t cur1 :: ps, cur2, s2)

/-- `points(gr)`: one MoveTo with nonzero count; a single point for count one,
otherwise one point per shift collected in decode order. -/
def points (t : Trafo) (s : List Nat) : Except GErr Geometry :=
  match command opMoveTo s with
  | .error e => .error e
  | .ok (moveTo, s1) =>
      match checkNonzero moveTo with
      | .error e => .error e
      | .ok moveTo =>
          if moveTo.count = 1 then
            match shift Cursor.init s1 with
            | .error e => .error e
            | .ok (cur, _) => .ok (.point (mkPoint t cur))
          else
            match shiftLoop t moveTo.count Cursor.init s1 with
            | .error e => .error e
            | .ok (ps, _, _) => .ok (.multiPoint ps)

/-- `singleLineString(gr, cur, closed)`: MoveTo with count exactly one, one
shift seeding the start point, LineTo with nonzero count followed by that many
shifts; when `closed`, a ClosePath with nonzero count and the start point
re-appended. -/
def singleLineString (t : Trafo) (closed : Bool) (cur0 : Cursor) (s : List Nat) :
    Except GErr (List Point × Cursor × List Nat) :=
  match command opMoveTo s with
  | .error e => .error e
  | .ok (moveTo, s1) =>
      match checkSingle moveTo with
      | .error e => .error e
      | .ok _ =>
          match shift cur0 s1 with
          | .error e => .error e
          | .ok (start, s2) =>
              match command opLineTo s2 with
              | .error e => .error e
              | .ok (lineTo, s3) =>
                  match checkNonzero lineTo with
                  | .error e => .error e
                  | .ok lineTo =>
                      match shiftLoop t lineTo.count start s3 with
                      | .error e => .error e
                      | .ok (ps, cur1, s4) =>
                          if closed then
                            match command opClosePath s4 with
                            | .error e => .error e
                            | .ok (closePath, s5) =>
                                match checkNonzero closePath with
                                | .error e => .error e
                                | .ok _ =>
                                    .ok (mkPoint t start :: ps
                                           ++ [mkPoint t start], cur1, s5)
                          else .ok (mkPoint t start :: ps, cur1, s4)

theorem shiftLoop_length_le (t : Trafo) :
    ∀ (n : Nat) (cur : Cursor) (s : List Nat) (ps : List Point)
      (cur' : Cursor) (s' : List Nat),
      shiftLoop t n cur s = .ok (ps, cur', s') → s'.length ≤ s.length := by
  intro n
  induction n with
  | zero =>
      intro cur s ps cur' s' h
      simp only [shiftLoop] at h
      cases h
      exact Nat.le_refl _
  | succ n ih =>
      intro cur s ps cur' s' h
      simp only [shiftLoop] at h
      cases s with
      | nil => simp [shift] at h
      | cons dx rest =>
          cases rest with
          | nil => simp [shift] at h
          | cons dy rest2 =>
              simp only [shift] at h
              cases hrec : shiftLoop t n (applyShift cur (dx, dy)) rest2 with
              | error e => rw [hrec] at h; cases h
              | ok v =>
                  obtain ⟨ps2, cur2, s2⟩ := v
                  rw [hrec] at h
                  cases h
                  have := ih _ _ _ _ _ hrec
                  simp only [List.length_cons]
                  omega

theorem command_length {expected : Nat} {s s2 : List Nat} {c : Command}
    (h : command expected s = .ok (c, s2)) : s.length = s2.length + 1 := by
  cases s with
  | nil => simp [command] at h
  | cons raw rest =>
      simp only [command] at h
      split at h
      · cases h
      · cases h; simp

theorem shift_length {cur cur' : Cursor} {s s' : List Nat}
    (h : shift cur s = .ok (cur', s')) : s.length = s'.length + 2 := by
  match s with
  | [] => simp [shift] at h
  | [d] => simp [shift] at h
  | dx :: dy :: rest => cases h; simp

theorem singleLineString_length_lt (t : Trafo) (closed : Bool) (cur0 : Cursor)
    (s : List Nat) (ps : List Point) (cur' : Cursor) (s' : List Nat)
    (h : singleLineString t closed cur0 s = .ok (ps, cur', s')) :
    s'.length < s.length := by
  unfold singleLineString at h
  split at h
  · cases h
  rename_i x1 mv s1 hc1
  split at h
  · cases h
  rename_i x2 a2 hcs
  split at h
  · cases h
  rename_i x3 start s2 hsh
  split at h
  · cases h
  rename_i x4 lt1 s3 hc2
  split at h
  · cases h
  rename_i x5 lt2 hcn
  split at h
  · cases h
  rename_i x6 ps4 cur4 s4 hsl
  have l1 := command_length hc1
  have l2 := shift_length hsh
  have l3 := command_length hc2
  have l4 := shiftLoop_length_le t _ _ _ _ _ _ hsl
  split at h
  · split at h
    · cases h
    rename_i x7 cp s5 hc3
    split at h
    · cases h
    cases h
    have l5 := command_length hc3
    omega
  · cases h
    omega

/-- `lineStrings(gr)`: the loop state is the in-progress single line string
and the optional multi line string, exactly as in the source; on each
iteration a pending single is first moved into a freshly created multi. -/
def lineStringsLoop (t : Trafo) (single : Option (List Point))
    (multi : Option (List (List Point))) (cur : Cursor) (s : List Nat) :
    Except GErr (Option Geometry) :=
  if s = [] then
    .ok (match single, multi with
         | some ls, _ => some (.lineString ls)
         | none, some m => some (.multiLineString m)
         | none, none => none)
  else
    match hss : singleLineString t false cur s with
    | .error e => .error e
    | .ok (ls, cur1, s1) =>
        match (match single with
               | some prev => some [prev]
               | none => multi) with
        | some m => lineStringsLoop t none (some (m ++ [ls])) cur1 s1
        | none => lineStringsLoop t (some ls) none cur1 s1
termination_by s.length
decreasing_by
  all_goals exact singleLineString_length_lt t false cur s ls cur1 s1 hss

def lineStrings (t : Trafo) (s : List Nat) : Except GErr (Option Geometry) :=
  lineStringsLoop t none none Cursor.init s

/-- The sequence of line strings decoded by repeatedly running the source's
`singleLineString` (open variant) until the stream is exhausted, in decode
order with the cursor threaded through. -/
def allLineStrings (t : Trafo) (cur : Cursor) (s : List Nat) :
    Except GErr (List (List Point)) :=
  if s = [] then .ok []
  else
    match hss : singleLineString t false cur s with
    | .error e => .error e
    | .ok (ls, cur1, s1) =>
        match allLineStrings t cur1 s1 with
        | .error e => .error e
        | .ok rest => .ok (ls :: rest)
termination_by s.length
decreasing_by
  exact singleLineString_length_lt t false cur s ls cur1 s1 hss

/-- Modelled from the spec: `OGRLinearRing::isClockwise` is host-library code
that is not part of this repository.  The spec defines ring orientation by a
signed-area (shoelace) test in the grid's Y-down convention, in which the ring
(0,0) -> (4,0) -> (4,4) -> (0,4) -> close is clockwise; that convention makes a
ring clockwise exactly when its shoelace sum is positive. -/
def shoelace : List Point → ℚ
  | p :: q :: rest => (p.x * q.y - q.x * p.y) + shoelace (q :: rest)
  | _ => 0

/-- Modelled from the spec: see `shoelace`. -/
def isClockwise (ring : List Point) : Bool :=
  decide (0 < shoelace ring)

/-- `polygons(gr)`: decode closed rings; a clockwise ring finalizes any open
polygon into the multi polygon (created on first need); every ring is appended
to the open polygon (opened if needed); at exhaustion the last open polygon
joins the multi polygon when one exists. -/
def polygonsLoop (t : Trafo) (single : Option Polygon)
    (multi : Option (List Polygon)) (cur : Cursor) (s : List Nat) :
    Except GErr (Option Geometry) :=
  if s = [] then
    .ok (match multi, single with
         | some m, some p => some (.multiPolygon (m ++ [p]))
         | none, some p => some (.polygon p)
         | some m, none => some (.multiPolygon m)
         | none, none => none)
  else
    match hss : singleLineString t true cur s with
    | .error e => .error e
    | .ok (ls, cur1, s1) =>
        let st :=
          if isClockwise ls then
            match single with
            | some p => ((none : Option Polygon), some (multi.getD [] ++ [p]))
            | none => (single, multi)
          else (single, multi)
        polygonsLoop t (some (st.1.getD [] ++ [ls])) st.2 cur1 s1
termination_by s.length
decreasing_by
  exact singleLineString_length_lt t true cur s ls cur1 s1 hss

def polygons (t : Trafo) (s : List Nat) : Except GErr (Option Geometry) :=
  polygonsLoop t none none Cursor.init s

/-- The sequence of closed rings decoded by repeatedly running the source's
`singleLineString` (closed variant) until the stream is exhausted. -/
def allRings (t : Trafo) (cur : Cursor) (s : List Nat) :
    Except GErr (List Ring) :=
  if s = [] then .ok []
  else
    match hss : singleLineString t true cur s with
    | .error e => .error e
    | .ok (ls, cur1, s1) =>
        match allRings t cur1 s1 with
        | .error e => .error e
        | .ok rest => .ok (ls :: rest)
termination_by s.length
decreasing_by
  exact singleLineString_length_lt t true cur s ls cur1 s1 hss

/-! ### Feature and layer iteration (mvt.cpp lines 105-132, 352-413) -/

/-- `vector_tile::Tile_GeomType`. -/
inductive GeomType where
  | unknown
  | point
  | lineString
  | polygon
deriving DecidableEq, Repr

/-- `generateGeometry`: dispatch on the declared feature type; the default
branch returns a null geometry. -/
def generateGeometry (t : Trafo) (typ : GeomType) (s : List Nat) :
    Except GErr (Option Geometry) :=
  match typ with
  | .point => (points t s).map some
  | .lineString => lineStrings t s
  | .polygon => polygons t s
  | .unknown => .ok none

/-- `vector_tile::Tile_Feature`: declared type, optional id, geometry
command stream. -/
structure Feature where
  type : GeomType
  id : Option Nat
  geometry : List Nat
deriving DecidableEq, Repr

structure Layer where
  features : List Feature
deriving DecidableEq, Repr

/-- The materialized `::OGRFeature`: definition geometry type, optional FID,
geometry (possibly null). -/
structure OGRFeature where
  geomType : GeomType
  fid : Option Nat
  geometry : Option Geometry
deriving DecidableEq, Repr

/-- The iterator `ifeatures_` is modelled by the suffix of the feature list
that remains to be visited. -/
def skipUnknown (fs : List Feature) : List Feature :=
  fs.dropWhile (fun f => f.type == GeomType.unknown)

/-- `MvtDataset::Layer::GetNextFeature`: skip unknown-typed features, stop at
the end, otherwise materialize the feature; a geometry error is caught,
reported via `CPLError` (the second component) and turned into a null result
without advancing the iterator. -/
def getNextFeature (t : Trafo) (st : List Feature) :
    Option OGRFeature × Option GErr × List Feature :=
  match skipUnknown st with
  | [] => (none, none, [])
  | f :: rest =>
      match generateGeometry t f.type f.geometry with
      | .error e => (none, some e, f :: rest)
      | .ok g => (some ⟨f.type, f.id, g⟩, none, rest)

/-- `MvtDataset::Layer::ResetReading`: back to the first feature. -/
def resetReading (l : Layer) : List Feature :=
  l.features

/-- `MvtDataset::Layer::GetFeatureCount`: the declared feature count. -/
def getFeatureCount (l : Layer) : Nat :=
  l.features.length

theorem getNextFeature_some_length (t : Trafo) (st : List Feature)
    (f : OGRFeature) (e : Option GErr) (st' : List Feature)
    (h : getNextFeature t st = (some f, e, st')) : st'.length < st.length := by
  unfold getNextFeature at h
  split at h
  · cases h
  rename_i f0 rest hsk
  have hle : (f0 :: rest).length ≤ st.length := by
    rw [← hsk]
    exact (List.dropWhile_sublist _).length_le
  split at h
  · cases h
  cases h
  simp only [List.length_cons] at hle
  omega

/-- The host's pull loop: call `GetNextFeature` until it returns null,
collecting the features it hands out. -/
def iterate (t : Trafo) (st : List Feature) : List OGRFeature :=
  match hnf : getNextFeature t st with
  | (some f, _, st') => f :: iterate t st'
  | (none, _, _) => []
termination_by st.length
decreasing_by
  exact getNextFeature_some_length t st f _ st' hnf

/-! ### Blending engine (blender.cpp, `BlendingDataset::RasterBand::IReadBlock`)

The per-block matrix computation is embedded per pixel: every step of the
source (ROI intersection, mask-derived weights, the hard/soft weight policy,
weighted accumulation, the zero-weight clamp and the final division) acts
independently on each output pixel, so the block loop is modelled as a
function of the global pixel coordinates.  Doubles are modelled by `ℚ`. -/

namespace Blend

/-- `cv::Rect` (integer): origin and size. -/
structure Rect where
  x : ℤ
  y : ℤ
  w : ℤ
  h : ℤ
deriving DecidableEq, Repr

/-- Membership of an integer pixel in an integer rectangle, as the ROI
intersections `block & band.ref.extents` restrict the per-pixel loops. -/
def Rect.containsPt (r : Rect) (px py : ℤ) : Bool :=
  decide (r.x ≤ px ∧ px < r.x + r.w ∧ r.y ≤ py ∧ py < r.y + r.h)

/-- `cv::Rect2d`. -/
structure RectQ where
  x : ℚ
  y : ℚ
  w : ℚ
  h : ℚ
deriving DecidableEq, Repr

/-- `cv::Rect2d::contains`: half-open on the far edges. -/
def RectQ.containsPt (r : RectQ) (px py : ℚ) : Bool :=
  decide (r.x ≤ px ∧ px < r.x + r.w ∧ r.y ≤ py ∧ py < r.y + r.h)

/-- `(a & b).area()` for `cv::Rect2d`: the intersection is empty (area zero)
unless both extents overlap. -/
def RectQ.interArea (a b : RectQ) : ℚ :=
  let x1 := max a.x b.x
  let y1 := max a.y b.y
  let x2 := min (a.x + a.w) (b.x + b.w)
  let y2 := min (a.y + a.h) (b.y + b.h)
  if x1 < x2 ∧ y1 < y2 then (x2 - x1) * (y2 - y1) else 0

/-- `overlap_`: a `math::Size2f`; `math::empty` tests a zero dimension. -/
structure Overlap where
  width : ℚ
  height : ℚ
deriving DecidableEq, Repr

def Overlap.isEmpty (o : Overlap) : Bool :=
  o.width == 0 || o.height == 0

/-- One entry of `bands_`: the source band with its `ImageReference`
(placement `extents` in output pixels, `valid` sub-rectangle), plus the
samples the two `RasterIO` calls read — the data (`sample`) and the mask
(`mask`), both indexed by source-local pixel, and the `GMF_ALL_VALID` flag. -/
structure SourceBand where
  extents : Rect
  valid : RectQ
  allValid : Bool
  sample : ℤ → ℤ → ℚ
  mask : ℤ → ℤ → ℚ

/-- The weight image before the policy: all ones under `GMF_ALL_VALID`,
otherwise the mask with every nonzero sample snapped to one. -/
def baseWeight (b : SourceBand) (lx ly : ℤ) : ℚ :=
  if b.allValid then 1
  else if b.mask lx ly ≠ 0 then 1 else 0

/-- The per-pixel weight policy: with an empty overlap a pixel keeps its
weight only when its center lies in the valid rectangle; otherwise the weight
is scaled by the kernel-overlap fraction (kernel of size 2·overlap centered on
the pixel, clipped to the valid rectangle, normalized by the full kernel
area). -/
def policyWeight (ov : Overlap) (b : SourceBand) (px py : ℤ) (w0 : ℚ) : ℚ :=
  if ov.isEmpty then
    if b.valid.containsPt ((px : ℚ) + 1/2) ((py : ℚ) + 1/2) then w0 else 0
  else
    let kernel : RectQ :=
      ⟨(px : ℚ) - ov.width + 1/2, (py : ℚ) - ov.height + 1/2,
       2 * ov.width, 2 * ov.height⟩
    w0 * (RectQ.interArea b.valid kernel / (4 * (ov.width * ov.height)))

/-- One source's contribution to one output pixel: zero outside
`block & extents`; inside, the weighted sample and the weight, read at
source-local coordinates. -/
def contribution (ov : Overlap) (block : Rect) (b : SourceBand)
    (px py : ℤ) : ℚ × ℚ :=
  if block.containsPt px py && b.extents.containsPt px py then
    let lx := px - b.extents.x
    let ly := py - b.extents.y
    let w := policyWeight ov b px py (baseWeight b lx ly)
    (w * b.sample lx ly, w)
  else (0, 0)

/-- `IReadBlock` at one pixel: accumulate `acc` and `wacc` over the source
bands, clamp a zero total weight to one, divide. -/
def readBlockPixel (ov : Overlap) (block : Rect) (bands : List SourceBand)
    (px py : ℤ) : ℚ :=
  let acc :=
    bands.foldl
      (fun (a : ℚ × ℚ) b =>
        let c := contribution ov block b px py
        (a.1 + c.1, a.2 + c.2))
      (0, 0)
  let wacc := if acc.2 = 0 then 1 else acc.2
  acc.1 / wacc

end Blend

/-! ### Encoded command streams and their decodings -/

theorem ofRaw_eq_mod_div (raw : Nat) :
    Command.ofRaw raw = ⟨raw % 8, raw / 8⟩ := by
  unfold Command.ofRaw
  have h1 : raw &&& 0x7 = raw % 8 := by
    have := Nat.and_pow_two_sub_one_eq_mod raw 3
    norm_num at this
    exact this
  have h2 : raw >>> 3 = raw / 8 := by
    have := Nat.shiftRight_eq_div_pow raw 3
    norm_num at this
    exact this
  rw [h1, h2]

theorem ofRaw_encode (op k : Nat) (hop : op < 8) :
    Command.ofRaw (op + 8 * k) = ⟨op, k⟩ := by
  rw [ofRaw_eq_mod_div]
  have h1 : (op + 8 * k) % 8 = op := by omega
  have h2 : (op + 8 * k) / 8 = k := by omega
  rw [h1, h2]

theorem command_encode (op k : Nat) (hop : op < 8) (rest : List Nat) :
    command op ((op + 8 * k) :: rest) = .ok (⟨op, k⟩, rest) := by
  simp [command, ofRaw_encode op k hop]

/-- A list of delta pairs as they stand in the stream. -/
def encodeDeltas : List (Nat × Nat) → List Nat
  | [] => []
  | d :: ds => d.1 :: d.2 :: encodeDeltas ds

/-- The points that a run of shifts over the delta pairs produces: each is
the image of the running cumulative cursor. -/
def decodePts (t : Trafo) : Cursor → List (Nat × Nat) → List Point
  | _, [] => []
  | cur, d :: ds => mkPoint t (applyShift cur d) :: decodePts t (applyShift cur d) ds

/-- The cursor after a run of shifts. -/
def foldShifts (cur : Cursor) (dps : List (Nat × Nat)) : Cursor :=
  dps.foldl applyShift cur

theorem decodePts_length (t : Trafo) :
    ∀ (dps : List (Nat × Nat)) (cur : Cursor),
      (decodePts t cur dps).length = dps.length := by
  intro dps
  induction dps with
  | nil => intro cur; rfl
  | cons d ds ih => intro cur; simp [decodePts, ih]

theorem shiftLoop_encode (t : Trafo) :
    ∀ (dps : List (Nat × Nat)) (cur : Cursor) (rest : List Nat),
      shiftLoop t dps.length cur (encodeDeltas dps ++ rest) =
        .ok (decodePts t cur dps, foldShifts cur dps, rest) := by
  intro dps
  induction dps with
  | nil => intro cur rest; rfl
  | cons d ds ih =>
      intro cur rest
      simp only [List.length_cons, encodeDeltas, List.cons_append, shiftLoop,
        shift, decodePts, foldShifts, List.foldl_cons]
      rw [ih (applyShift cur d) rest]
      rfl

/-- One encoded line-string segment: MoveTo(1), the seed delta pair, a
LineTo(k), then k delta pairs. -/
structure Segment where
  k : Nat
  d0 : Nat × Nat
  ds : List (Nat × Nat)
deriving DecidableEq, Repr

def Segment.wf (seg : Segment) : Prop :=
  1 ≤ seg.k ∧ seg.ds.length = seg.k

instance (seg : Segment) : Decidable seg.wf := by
  unfold Segment.wf
  infer_instance

def encodeSegment (seg : Segment) : List Nat :=
  (opMoveTo + 8 * 1) :: seg.d0.1 :: seg.d0.2 :: (opLineTo + 8 * seg.k)
    :: encodeDeltas seg.ds

/-- The line string one well-formed encoded segment decodes to. -/
def segPoints (t : Trafo) (cur : Cursor) (seg : Segment) : List Point :=
  mkPoint t (applyShift cur seg.d0)
    :: decodePts t (applyShift cur seg.d0) seg.ds

/-- The cursor after decoding one segment. -/
def segEnd (cur : Cursor) (seg : Segment) : Cursor :=
  foldShifts (applyShift cur seg.d0) seg.ds

theorem singleLineString_encode (t : Trafo) (cur : Cursor) (seg : Segment)
    (rest : List Nat) (h : seg.wf) :
    singleLineString t false cur (encodeSegment seg ++ rest) =
      .ok (segPoints t cur seg, segEnd cur seg, rest) := by
  obtain ⟨hk, hlen⟩ := h
  have hknz : ¬seg.k = 0 := by omega
  have hsl := shiftLoop_encode t seg.ds (applyShift cur seg.d0) rest
  rw [hlen] at hsl
  simp [encodeSegment, singleLineString,
    command_encode opMoveTo 1 (by decide),
    command_encode opLineTo seg.k (by decide),
    checkSingle, checkNonzero, shift, hknz, hsl, segPoints, segEnd]

/-- One encoded closed ring: a segment followed by ClosePath(c). -/
def encodeRing (seg : Segment) (c : Nat) : List Nat :=
  encodeSegment seg ++ [opClosePath + 8 * c]

/-- The closed ring a well-formed encoded ring decodes to: the segment's
points with the start point re-appended. -/
def ringPoints (t : Trafo) (cur : Cursor) (seg : Segment) : List Point :=
  segPoints t cur seg ++ [mkPoint t (applyShift cur seg.d0)]

theorem singleLineString_closed_encode (t : Trafo) (cur : Cursor)
    (seg : Segment) (c : Nat) (rest : List Nat) (h : seg.wf) (hc : c ≠ 0) :
    singleLineString t true cur (encodeRing seg c ++ rest) =
      .ok (ringPoints t cur seg, segEnd cur seg, rest) := by
  obtain ⟨hk, hlen⟩ := h
  have hknz : ¬seg.k = 0 := by omega
  have hsl := shiftLoop_encode t seg.ds (applyShift cur seg.d0)
    ((opClosePath + 8 * c) :: rest)
  rw [hlen] at hsl
  simp [encodeRing, encodeSegment, singleLineString,
    command_encode opMoveTo 1 (by decide),
    command_encode opLineTo seg.k (by decide),
    command_encode opClosePath c (by decide),
    checkSingle, checkNonzero, shift, hknz, hc, hsl, ringPoints, segPoints,
    segEnd]

theorem singleLineString_closed_zero (t : Trafo) (cur : Cursor)
    (seg : Segment) (rest : List Nat) (h : seg.wf) :
    singleLineString t true cur (encodeRing seg 0 ++ rest) =
      .error (.invalidCount 0) := by
  obtain ⟨hk, hlen⟩ := h
  have hknz : ¬seg.k = 0 := by omega
  have hsl := shiftLoop_encode t seg.ds (applyShift cur seg.d0)
    ((opClosePath + 8 * 0) :: rest)
  rw [hlen] at hsl
  have hcp := command_encode opClosePath 0 (by decide) rest
  simp only [Nat.mul_zero, Nat.add_zero] at hsl hcp
  simp [encodeRing, encodeSegment, singleLineString,
    command_encode opMoveTo 1 (by decide),
    command_encode opLineTo seg.k (by decide),
    checkSingle, checkNonzero, shift, hknz, hsl, hcp]

/-! ### The grouping of decoded rings into polygons, as the spec states it -/

/-- The spec's ring-grouping transition: a clockwise ring first finalizes any
open polygon into the multi polygon (created on first need); then the ring is
appended to the open polygon's ring list (opening one if none is open).
State: (open polygon, multi polygon). -/
def groupRingsStep (st : Option Polygon × Option (List Polygon)) (ring : Ring) :
    Option Polygon × Option (List Polygon) :=
  let st1 :=
    if isClockwise ring then
      match st.1 with
      | some p => ((none : Option Polygon), some (st.2.getD [] ++ [p]))
      | none => st
    else st
  (some (st1.1.getD [] ++ [ring]), st1.2)

/-- The spec's finalization at stream exhaustion: with a multi polygon
started, the open polygon joins it and the multi polygon is returned;
otherwise the single polygon (or nothing, for no rings at all). -/
def polyFinalize : Option Polygon × Option (List Polygon) → Option Geometry
  | (some p, some m) => some (.multiPolygon (m ++ [p]))
  | (some p, none) => some (.polygon p)
  | (none, some m) => some (.multiPolygon m)
  | (none, none) => none

/-- The spec's description of the POLYGON builder as a fold over the decoded
ring sequence. -/
def groupRings (rings : List Ring) : Option Geometry :=
  polyFinalize (rings.foldl groupRingsStep (none, none))

theorem polygonsLoop_spec (t : Trafo) (s : List Nat) (cur : Cursor)
    (single : Option Polygon) (multi : Option (List Polygon))
    (rings : List Ring) (h : allRings t cur s = .ok rings) :
    polygonsLoop t single multi cur s =
      .ok (polyFinalize (rings.foldl groupRingsStep (single, multi))) := by
  by_cases hnil : s = []
  · subst hnil
    rw [allRings.eq_def] at h
    simp only [if_pos] at h
    cases h
    rw [polygonsLoop.eq_def]
    simp only [if_pos, List.foldl_nil]
    cases single <;> cases multi <;> rfl
  · rw [allRings.eq_def] at h
    rw [if_neg hnil] at h
    rw [polygonsLoop.eq_def, if_neg hnil]
    split at h
    · cases h
    rename_i ls cur1 s1 heq
    split at h
    · cases h
    rename_i rest hrec
    cases h
    simp only [heq, List.foldl_cons]
    rw [polygonsLoop_spec t s1 cur1 _ _ rest hrec]
    rfl
termination_by s.length
decreasing_by
  exact singleLineString_length_lt _ _ _ _ _ _ _ (by assumption)

theorem lineStringsLoop_multi (t : Trafo) (s : List Nat) (cur : Cursor)
    (m : List (List Point)) (lss : List (List Point))
    (h : allLineStrings t cur s = .ok lss) :
    lineStringsLoop t none (some m) cur s =
      .ok (some (.multiLineString (m ++ lss))) := by
  by_cases hnil : s = []
  · subst hnil
    rw [allLineStrings.eq_def] at h
    simp only [if_pos] at h
    cases h
    rw [lineStringsLoop.eq_def]
    simp
  · rw [allLineStrings.eq_def] at h
    rw [if_neg hnil] at h
    rw [lineStringsLoop.eq_def, if_neg hnil]
    split at h
    · cases h
    rename_i ls cur1 s1 heq
    split at h
    · cases h
    rename_i rest hrec
    cases h
    simp only [heq]
    rw [lineStringsLoop_multi t s1 cur1 (m ++ [ls]) rest hrec]
    simp
termination_by s.length
decreasing_by
  exact singleLineString_length_lt _ _ _ _ _ _ _ (by assumption)

theorem lineStringsLoop_one (t : Trafo) (s : List Nat) (cur : Cursor)
    (l0 : List Point) (lss : List (List Point))
    (h : allLineStrings t cur s = .ok lss) :
    lineStringsLoop t (some l0) none cur s =
      .ok (some (match lss with
                 | [] => Geometry.lineString l0
                 | _ => .multiLineString (l0 :: lss))) := by
  by_cases hnil : s = []
  · subst hnil
    rw [allLineStrings.eq_def] at h
    simp only [if_pos] at h
    cases h
    rw [lineStringsLoop.eq_def]
    simp
  · rw [allLineStrings.eq_def] at h
    rw [if_neg hnil] at h
    rw [lineStringsLoop.eq_def, if_neg hnil]
    split at h
    · cases h
    rename_i ls cur1 s1 heq
    split at h
    · cases h
    rename_i rest hrec
    cases h
    simp only [heq]
    rw [lineStringsLoop_multi t s1 cur1 ([l0] ++ [ls]) rest hrec]
    simp

theorem lineStrings_decomp (t : Trafo) (s : List Nat)
    (lss : List (List Point))
    (h : allLineStrings t Cursor.init s = .ok lss) :
    lineStrings t s =
      .ok (match lss with
           | [] => none
           | [l] => some (.lineString l)
           | _ => some (.multiLineString lss)) := by
  unfold lineStrings
  by_cases hnil : s = []
  · subst hnil
    rw [allLineStrings.eq_def] at h
    simp only [if_pos] at h
    cases h
    rw [lineStringsLoop.eq_def]
    simp
  · rw [allLineStrings.eq_def] at h
    rw [if_neg hnil] at h
    rw [lineStringsLoop.eq_def, if_neg hnil]
    split at h
    · cases h
    rename_i ls cur1 s1 heq
    split at h
    · cases h
    rename_i rest hrec
    cases h
    simp only [heq]
    rw [lineStringsLoop_one t s1 cur1 ls rest hrec]
    cases rest <;> simp

theorem lineStringsLoop_error (t : Trafo) (s : List Nat) (cur : Cursor)
    (single : Option (List Point)) (multi : Option (List (List Point)))
    (e : GErr) (h : allLineStrings t cur s = .error e) :
    lineStringsLoop t single multi cur s = .error e := by
  by_cases hnil : s = []
  · subst hnil
    rw [allLineStrings.eq_def] at h
    simp only [if_pos] at h
    cases h
  · rw [allLineStrings.eq_def] at h
    rw [if_neg hnil] at h
    rw [lineStringsLoop.eq_def, if_neg hnil]
    split at h
    · rename_i e1 heq
      cases h
      simp only [heq]
    rename_i ls cur1 s1 heq
    split at h
    · rename_i e1 hrec
      cases h
      split
      · exact lineStringsLoop_error t s1 cur1 none _ e hrec
      · exact lineStringsLoop_error t s1 cur1 (some ls) none e hrec
    cases h
termination_by s.length
decreasing_by
  all_goals exact singleLineString_length_lt _ _ _ _ _ _ _ (by assumption)

theorem polygonsLoop_error (t : Trafo) (s : List Nat) (cur : Cursor)
    (single : Option Polygon) (multi : Option (List Polygon))
    (e : GErr) (h : allRings t cur s = .error e) :
    polygonsLoop t single multi cur s = .error e := by
  by_cases hnil : s = []
  · subst hnil
    rw [allRings.eq_def] at h
    simp only [if_pos] at h
    cases h
  · rw [allRings.eq_def] at h
    rw [if_neg hnil] at h
    rw [polygonsLoop.eq_def, if_neg hnil]
    split at h
    · rename_i e1 heq
      cases h
      simp only [heq]
    rename_i ls cur1 s1 heq
    split at h
    · rename_i e1 hrec
      cases h
      simp only [heq]
      exact polygonsLoop_error t s1 cur1 _ _ e hrec
    cases h
termination_by s.length
decreasing_by
  all_goals exact singleLineString_length_lt _ _ _ _ _ _ _ (by assumption)

/-! ### Streams of several encoded segments / rings -/

def encodeSegments : List Segment → List Nat
  | [] => []
  | seg :: rest => encodeSegment seg ++ encodeSegments rest

/-- The line strings a well-formed multi-segment stream decodes to, with the
cursor threaded through the segments. -/
def stringsOf (t : Trafo) : Cursor → List Segment → List (List Point)
  | _, [] => []
  | cur, seg :: rest => segPoints t cur seg :: stringsOf t (segEnd cur seg) rest

/-- The cursor after a run of segments. -/
def segsCursor (cur : Cursor) (segs : List Segment) : Cursor :=
  segs.foldl segEnd cur

theorem allLineStrings_encode (t : Trafo) :
    ∀ (segs : List Segment) (cur : Cursor), (∀ seg ∈ segs, seg.wf) →
      allLineStrings t cur (encodeSegments segs) = .ok (stringsOf t cur segs) := by
  intro segs
  induction segs with
  | nil =>
      intro cur _
      rw [allLineStrings.eq_def]
      simp [encodeSegments, stringsOf]
  | cons seg rest ih =>
      intro cur h
      have hwf : seg.wf := h seg (List.mem_cons_self seg rest)
      have hne : encodeSegments (seg :: rest) ≠ [] := by
        simp [encodeSegments, encodeSegment]
      rw [allLineStrings.eq_def, if_neg hne]
      have henc : encodeSegments (seg :: rest)
          = encodeSegment seg ++ encodeSegments rest := rfl
      split
      · rename_i e heq
        rw [henc, singleLineString_encode t cur seg (encodeSegments rest) hwf]
          at heq
        cases heq
      · rename_i ls cur1 s1 heq
        rw [henc, singleLineString_encode t cur seg (encodeSegments rest) hwf]
          at heq
        cases heq
        rw [ih (segEnd cur seg) (fun f hf => h f (List.mem_cons_of_mem seg hf))]
        rfl

def encodeRings : List (Segment × Nat) → List Nat
  | [] => []
  | r :: rest => encodeRing r.1 r.2 ++ encodeRings rest

/-- The closed rings a well-formed multi-ring stream decodes to. -/
def ringsOf (t : Trafo) : Cursor → List (Segment × Nat) → List Ring
  | _, [] => []
  | cur, r :: rest => ringPoints t cur r.1 :: ringsOf t (segEnd cur r.1) rest

theorem allRings_encode (t : Trafo) :
    ∀ (rs : List (Segment × Nat)) (cur : Cursor),
      (∀ r ∈ rs, r.1.wf ∧ r.2 ≠ 0) →
      allRings t cur (encodeRings rs) = .ok (ringsOf t cur rs) := by
  intro rs
  induction rs with
  | nil =>
      intro cur _
      rw [allRings.eq_def]
      simp [encodeRings, ringsOf]
  | cons r rest ih =>
      intro cur h
      obtain ⟨hwf, hc⟩ := h r (List.mem_cons_self r rest)
      have hne : encodeRings (r :: rest) ≠ [] := by
        simp [encodeRings, encodeRing, encodeSegment]
      rw [allRings.eq_def, if_neg hne]
      have henc : encodeRings (r :: rest)
          = encodeRing r.1 r.2 ++ encodeRings rest := rfl
      split
      · rename_i e heq
        rw [henc, singleLineString_closed_encode t cur r.1 r.2
          (encodeRings rest) hwf hc] at heq
        cases heq
      · rename_i ls cur1 s1 heq
        rw [henc, singleLineString_closed_encode t cur r.1 r.2
          (encodeRings rest) hwf hc] at heq
        cases heq
        rw [ih (segEnd cur r.1) (fun x hx => h x (List.mem_cons_of_mem r hx))]
        rfl

/-! ### Error short-circuits of the line-string builder -/

theorem singleLineString_moveTo_bad (t : Trafo) (closed : Bool) (cur : Cursor)
    (m : Nat) (rest : List Nat) (hm : m ≠ 1) :
    singleLineString t closed cur ((opMoveTo + 8 * m) :: rest) =
      .error (.invalidCount m) := by
  simp [singleLineString, command_encode opMoveTo m (by decide), checkSingle, hm]

theorem singleLineString_lineTo_zero (t : Trafo) (closed : Bool) (cur : Cursor)
    (dx dy : Nat) (rest : List Nat) :
    singleLineString t closed cur
        ((opMoveTo + 8 * 1) :: dx :: dy :: (opLineTo + 8 * 0) :: rest) =
      .error (.invalidCount 0) := by
  have hlt := command_encode opLineTo 0 (by decide) rest
  simp only [Nat.mul_zero, Nat.add_zero] at hlt
  simp [singleLineString, command_encode opMoveTo 1 (by decide), hlt,
    checkSingle, checkNonzero, shift]

theorem lineStrings_step_error (t : Trafo) (s : List Nat) (e : GErr)
    (hnil : s ≠ []) (h : singleLineString t false Cursor.init s = .error e) :
    lineStrings t s = .error e := by
  unfold lineStrings
  rw [lineStringsLoop.eq_def, if_neg hnil]
  split
  · rename_i e1 heq
    rw [h] at heq
    cases heq
    rfl
  · rename_i ls cur1 s1 heq
    rw [h] at heq
    cases heq

/-! ### Iteration lemmas -/

/-- The feature the iterator hands to the host when the geometry decodes. -/
def materialize (t : Trafo) (f : Feature) : OGRFeature :=
  ⟨f.type, f.id, ((generateGeometry t f.type f.geometry).toOption).getD none⟩

theorem skipUnknown_cons_unknown (f : Feature) (rest : List Feature)
    (h : f.type = GeomType.unknown) :
    skipUnknown (f :: rest) = skipUnknown rest := by
  simp [skipUnknown, List.dropWhile_cons, h]

theorem skipUnknown_cons_known (f : Feature) (rest : List Feature)
    (h : f.type ≠ GeomType.unknown) :
    skipUnknown (f :: rest) = f :: rest := by
  simp [skipUnknown, List.dropWhile_cons, h]

theorem getNextFeature_unknown (t : Trafo) (f : Feature) (rest : List Feature)
    (h : f.type = GeomType.unknown) :
    getNextFeature t (f :: rest) = getNextFeature t rest := by
  unfold getNextFeature
  rw [skipUnknown_cons_unknown f rest h]

theorem getNextFeature_ok (t : Trafo) (f : Feature) (rest : List Feature)
    (g : Option Geometry) (hu : f.type ≠ GeomType.unknown)
    (hg : generateGeometry t f.type f.geometry = .ok g) :
    getNextFeature t (f :: rest) = (some ⟨f.type, f.id, g⟩, none, rest) := by
  unfold getNextFeature
  rw [skipUnknown_cons_known f rest hu]
  simp [hg]

theorem getNextFeature_err (t : Trafo) (f : Feature) (rest : List Feature)
    (e : GErr) (hu : f.type ≠ GeomType.unknown)
    (hg : generateGeometry t f.type f.geometry = .error e) :
    getNextFeature t (f :: rest) = (none, some e, f :: rest) := by
  unfold getNextFeature
  rw [skipUnknown_cons_known f rest hu]
  simp [hg]

theorem iterate_step (t : Trafo) (st : List Feature) (o : Option OGRFeature)
    (e : Option GErr) (st2 : List Feature)
    (h : getNextFeature t st = (o, e, st2)) :
    iterate t st = match o with
                   | some f => f :: iterate t st2
                   | none => [] := by
  rw [iterate.eq_def]
  split
  · rename_i f2 e2 st3 hnf
    rw [h] at hnf
    injection hnf with h1 h23
    injection h23 with h2 h3
    subst h1
    subst h3
    rfl
  · rename_i e2 st3 hnf
    rw [h] at hnf
    injection hnf with h1 h23
    subst h1
    rfl

theorem iterate_nil (t : Trafo) : iterate t [] = [] := by
  have h : getNextFeature t [] = (none, none, []) := rfl
  rw [iterate_step t [] none none [] h]

theorem iterate_unknown (t : Trafo) (f : Feature) (rest : List Feature)
    (h : f.type = GeomType.unknown) :
    iterate t (f :: rest) = iterate t rest := by
  rcases h2 : getNextFeature t rest with ⟨o, e, st2⟩
  rw [iterate_step t (f :: rest) o e st2 (by rw [getNextFeature_unknown t f rest h, h2]),
      iterate_step t rest o e st2 h2]
  cases o <;> rfl

theorem iterate_filter_map (t : Trafo) :
    ∀ fs : List Feature,
      (∀ f ∈ fs, f.type ≠ GeomType.unknown →
        (generateGeometry t f.type f.geometry).isOk = true) →
      iterate t fs =
        (fs.filter (fun f => f.type != GeomType.unknown)).map (materialize t) := by
  intro fs
  induction fs with
  | nil => intro _; rw [iterate_nil]; rfl
  | cons f rest ih =>
      intro h
      have hrest := fun x hx => h x (List.mem_cons_of_mem f hx)
      by_cases hu : f.type = GeomType.unknown
      · rw [iterate_unknown t f rest hu, ih hrest]
        simp [List.filter_cons, hu]
      · cases hg : generateGeometry t f.type f.geometry with
        | error e =>
            have := h f (List.mem_cons_self f rest) hu
            rw [hg] at this
            simp [Except.isOk, Except.toBool] at this
        | ok g =>
            rw [iterate_step t (f :: rest) (some ⟨f.type, f.id, g⟩) none rest
              (getNextFeature_ok t f rest g hu hg)]
            rw [ih hrest]
            simp [List.filter_cons, hu, materialize, hg, Except.toOption]

theorem decodePts_getElem (t : Trafo) :
    ∀ (dps : List (Nat × Nat)) (cur : Cursor) (i : Nat), i < dps.length →
      (decodePts t cur dps)[i]? =
        some (mkPoint t (foldShifts cur (dps.take (i + 1)))) := by
  intro dps
  induction dps with
  | nil =>
      intro cur i hi
      simp at hi
  | cons d ds ih =>
      intro cur i hi
      cases i with
      | zero => simp [decodePts, foldShifts]
      | succ n =>
          simp only [decodePts, List.getElem?_cons_succ, List.take_succ_cons]
          rw [ih (applyShift cur d) n (by simpa using hi)]
          simp [foldShifts]

theorem segPoints_length (t : Trafo) (c : Cursor) (seg : Segment)
    (h : seg.wf) : (segPoints t c seg).length = seg.k + 1 := by
  simp [segPoints, decodePts_length, h.2]

theorem segPoints_head (t : Trafo) (c : Cursor) (seg : Segment) :
    (segPoints t c seg).head? = some (mkPoint t (applyShift c seg.d0)) := rfl

theorem stringsOf_length (t : Trafo) :
    ∀ (segs : List Segment) (cur : Cursor),
      (stringsOf t cur segs).length = segs.length := by
  intro segs
  induction segs with
  | nil => intro cur; rfl
  | cons seg rest ih => intro cur; simp [stringsOf, ih]

theorem stringsOf_getElem (t : Trafo) :
    ∀ (segs : List Segment) (cur : Cursor) (i : Nat) (hi : i < segs.length),
      (stringsOf t cur segs)[i]? =
        some (segPoints t (segsCursor cur (segs.take i)) (segs.get ⟨i, hi⟩)) := by
  intro segs
  induction segs with
  | nil =>
      intro cur i hi
      simp at hi
  | cons seg rest ih =>
      intro cur i hi
      cases i with
      | zero => simp [stringsOf, segsCursor]
      | succ n =>
          simp only [stringsOf, List.getElem?_cons_succ, List.take_succ_cons]
          rw [ih (segEnd cur seg) n (by simpa using hi)]
          simp [segsCursor]

theorem blend_accumulate_eq_sum (ov : Blend.Overlap) (block : Blend.Rect)
    (px py : ℤ) :
    ∀ (bands : List Blend.SourceBand) (init : ℚ × ℚ),
      bands.foldl
        (fun (a : ℚ × ℚ) b =>
          let c := Blend.contribution ov block b px py
          (a.1 + c.1, a.2 + c.2)) init =
      (init.1 + (bands.map
          (fun b => (Blend.contribution ov block b px py).1)).sum,
       init.2 + (bands.map
          (fun b => (Blend.contribution ov block b px py).2)).sum) := by
  intro bands
  induction bands with
  | nil => intro init; simp
  | cons b bs ih =>
      intro init
      simp only [List.foldl_cons, List.map_cons, List.sum_cons]
      rw [ih]
      ring_nf

/-! ### The claims -/

/-- C8: for every coordinate-transform configuration — with or without a
target geo-extent — and every grid coordinate value, applying the transform
returns the value unchanged: the affine shift/scale computed at construction
is never used by `x`/`y`. -/
theorem mvt_trafo_identity (extent : ℚ) (extents : Option Extents2)
    (v : Nat) :
    (Trafo.make extent extents).x v = (v : ℚ)
    ∧ (Trafo.make extent extents).y v = (v : ℚ) :=
  ⟨rfl, rfl⟩

/-- C3: reading a command decodes opcode = value & 0x7 and count = value >> 3
from one unsigned integer; reading past the end fails with StreamUnderrun;
a decoded opcode different from the expected one fails with UnexpectedOpcode;
a shift consumes exactly two further integers, added to cursor x then y, and
fails with StreamUnderrun when fewer than two remain. -/
theorem mvt_reader_contract (expected raw1 raw2 dx dy d : Nat)
    (rest : List Nat) (cur : Cursor) :
    command expected [] = .error .streamUnderrun
    ∧ (raw1 &&& 0x7 ≠ expected →
        command expected (raw1 :: rest) =
          .error (.unexpectedOpcode (raw1 &&& 0x7) expected))
    ∧ (raw2 &&& 0x7 = expected →
        command expected (raw2 :: rest) =
          .ok (⟨raw2 &&& 0x7, raw2 >>> 3⟩, rest))
    ∧ shift cur [] = .error .streamUnderrun
    ∧ shift cur [d] = .error .streamUnderrun
    ∧ shift cur (dx :: dy :: rest) =
        .ok (⟨uint32 (cur.x + dx), uint32 (cur.y + dy)⟩, rest) := by
  refine ⟨rfl, fun h1 => ?_, fun h2 => ?_, rfl, rfl, rfl⟩
  · simp [command, Command.ofRaw, h1]
  · simp [command, Command.ofRaw, h2]

theorem mvt_reader_contract_witness :
    command 1 [] = .error .streamUnderrun
    ∧ command 1 [18, 3] = .error (.unexpectedOpcode 2 1)
    ∧ command 1 [9, 3] = .ok (⟨1, 1⟩, [3])
    ∧ shift ⟨5, 6⟩ [] = .error .streamUnderrun
    ∧ shift ⟨5, 6⟩ [4] = .error .streamUnderrun
    ∧ shift ⟨5, 6⟩ [10, 20, 3] =
        .ok (⟨uint32 (5 + 10), uint32 (6 + 20)⟩, [3]) := by
  have h := mvt_reader_contract 1 18 9 10 20 4 [3] ⟨5, 6⟩
  exact ⟨h.1, by simpa using h.2.1 (by decide), by simpa using h.2.2.1 (by decide),
    h.2.2.2.1, h.2.2.2.2.1, h.2.2.2.2.2⟩

/-- C2: a ring MoveTo(1) + LineTo(k ≥ 1) + ClosePath(c) decodes for every
nonzero c — ClosePath is checked count-nonzero, not count-exactly-one — and
only c = 0 fails, with InvalidCount; the closed ring's last coordinate equals
its first (the start point is re-appended after ClosePath). -/
theorem mvt_ring_close_semantics (t : Trafo) (cur : Cursor) (seg : Segment)
    (c : Nat) (rest : List Nat) (h : seg.wf) :
    (c ≠ 0 →
      singleLineString t true cur (encodeRing seg c ++ rest) =
        .ok (ringPoints t cur seg, segEnd cur seg, rest)
      ∧ (ringPoints t cur seg).head? =
          some (mkPoint t (applyShift cur seg.d0))
      ∧ (ringPoints t cur seg).getLast? =
          some (mkPoint t (applyShift cur seg.d0)))
    ∧ (c = 0 →
      singleLineString t true cur (encodeRing seg c ++ rest) =
        .error (.invalidCount 0)) := by
  constructor
  · intro hc
    refine ⟨singleLineString_closed_encode t cur seg c rest h hc, rfl, ?_⟩
    simp [ringPoints]
  · intro hc
    subst hc
    exact singleLineString_closed_zero t cur seg rest h

theorem mvt_ring_close_semantics_witness :
    (singleLineString (Trafo.make 4096 none) true Cursor.init
        (encodeRing ⟨1, (1, 1), [(2, 2)]⟩ 2 ++ []) =
      .ok (ringPoints (Trafo.make 4096 none) Cursor.init ⟨1, (1, 1), [(2, 2)]⟩,
           segEnd Cursor.init ⟨1, (1, 1), [(2, 2)]⟩, [])
      ∧ (ringPoints (Trafo.make 4096 none) Cursor.init
          ⟨1, (1, 1), [(2, 2)]⟩).head? =
          some (mkPoint (Trafo.make 4096 none) (applyShift Cursor.init (1, 1)))
      ∧ (ringPoints (Trafo.make 4096 none) Cursor.init
          ⟨1, (1, 1), [(2, 2)]⟩).getLast? =
          some (mkPoint (Trafo.make 4096 none) (applyShift Cursor.init (1, 1))))
    ∧ singleLineString (Trafo.make 4096 none) true Cursor.init
        (encodeRing ⟨1, (1, 1), [(2, 2)]⟩ 0 ++ []) =
        .error (.invalidCount 0) :=
  ⟨(mvt_ring_close_semantics (Trafo.make 4096 none) Cursor.init
      ⟨1, (1, 1), [(2, 2)]⟩ 2 [] (by decide)).1 (by decide),
   (mvt_ring_close_semantics (Trafo.make 4096 none) Cursor.init
      ⟨1, (1, 1), [(2, 2)]⟩ 0 [] (by decide)).2 rfl⟩

/-- C5: a POINT feature reads one MoveTo: count 0 fails with InvalidCount;
count 1 yields a single Point at the cumulative delta applied to the zero
cursor; count N > 1 yields a multi point of N points, the i-th being the
running cumulative delta sum after i + 1 shifts, in decode order. -/
theorem mvt_points_builder (t : Trafo) (rest : List Nat) (dx dy : Nat)
    (dps : List (Nat × Nat)) :
    points t ((opMoveTo + 8 * 0) :: rest) = .error (.invalidCount 0)
    ∧ points t ((opMoveTo + 8 * 1) :: dx :: dy :: rest) =
        .ok (.point (mkPoint t (applyShift Cursor.init (dx, dy))))
    ∧ (2 ≤ dps.length →
        points t ((opMoveTo + 8 * dps.length) :: (encodeDeltas dps ++ rest)) =
          .ok (.multiPoint (decodePts t Cursor.init dps))
        ∧ (decodePts t Cursor.init dps).length = dps.length
        ∧ ∀ i, i < dps.length →
            (decodePts t Cursor.init dps)[i]? =
              some (mkPoint t (foldShifts Cursor.init (dps.take (i + 1))))) := by
  refine ⟨?_, ?_, fun h2 => ⟨?_, decodePts_length t dps Cursor.init,
    fun i hi => decodePts_getElem t dps Cursor.init i hi⟩⟩
  · have hc := command_encode opMoveTo 0 (by decide) rest
    simp only [Nat.mul_zero, Nat.add_zero] at hc
    simp [points, hc, checkNonzero]
  · simp [points, command_encode opMoveTo 1 (by decide), checkNonzero, shift]
  · have hne : ¬dps.length = 0 := by omega
    have hne1 : ¬dps.length = 1 := by omega
    simp [points, command_encode opMoveTo dps.length (by decide), checkNonzero,
      hne, hne1, shiftLoop_encode t dps Cursor.init rest]

theorem mvt_points_builder_witness :
    points (Trafo.make 4096 none) ((opMoveTo + 8 * 2)
        :: (encodeDeltas [(1, 1), (2, 2)] ++ [])) =
      .ok (.multiPoint (decodePts (Trafo.make 4096 none) Cursor.init
        [(1, 1), (2, 2)]))
    ∧ (decodePts (Trafo.make 4096 none) Cursor.init [(1, 1), (2, 2)]).length = 2
    ∧ ∀ i, i < 2 →
        (decodePts (Trafo.make 4096 none) Cursor.init [(1, 1), (2, 2)])[i]? =
          some (mkPoint (Trafo.make 4096 none)
            (foldShifts Cursor.init ([(1, 1), (2, 2)].take (i + 1)))) := by
  have h := (mvt_points_builder (Trafo.make 4096 none) [] 0 0
    [(1, 1), (2, 2)]).2.2 (by decide)
  exact ⟨h.1, h.2.1, h.2.2⟩

/-- C10: an empty command stream yields a null geometry without error for
LINESTRING and POLYGON features (the decode loop body never runs) and the
iterator emits the feature with a null geometry rather than skipping it; only
a POINT feature, which unconditionally reads a MoveTo first, fails with
StreamUnderrun on an empty stream. -/
theorem mvt_empty_stream_null_geometry (t : Trafo) (f : Feature)
    (rest : List Feature)
    (hty : f.type = GeomType.lineString ∨ f.type = GeomType.polygon)
    (hempty : f.geometry = []) :
    lineStrings t [] = .ok none
    ∧ polygons t [] = .ok none
    ∧ points t [] = .error .streamUnderrun
    ∧ getNextFeature t (f :: rest) = (some ⟨f.type, f.id, none⟩, none, rest) := by
  have hls : lineStrings t [] = .ok none := by
    unfold lineStrings
    rw [lineStringsLoop.eq_def]
    simp
  have hpg : polygons t [] = .ok none := by
    unfold polygons
    rw [polygonsLoop.eq_def]
    simp
  refine ⟨hls, hpg, rfl, ?_⟩
  have hu : f.type ≠ GeomType.unknown := by
    rcases hty with h | h <;> simp [h]
  have hgen : generateGeometry t f.type f.geometry = .ok none := by
    rcases hty with h | h <;> rw [h, hempty] <;>
      simp [generateGeometry, hls, hpg]
  exact getNextFeature_ok t f rest none hu hgen

theorem mvt_empty_stream_null_geometry_witness :
    lineStrings (Trafo.make 4096 none) [] = .ok none
    ∧ polygons (Trafo.make 4096 none) [] = .ok none
    ∧ points (Trafo.make 4096 none) [] = .error .streamUnderrun
    ∧ getNextFeature (Trafo.make 4096 none)
        [⟨GeomType.lineString, some 7, []⟩] =
      (some ⟨GeomType.lineString, some 7, none⟩, none, []) :=
  mvt_empty_stream_null_geometry (Trafo.make 4096 none)
    ⟨GeomType.lineString, some 7, []⟩ [] (Or.inl rfl) rfl

/-- C6 (amended): a geometry decode failure is caught at the iteration
boundary and reported to the diagnostic channel, and the call returns no
feature instead of propagating the exception; but the iterator is left at the
failing feature — the feature is not skipped and iteration does not continue
past it. -/
theorem mvt_error_caught_not_skipped (t : Trafo) (st : List Feature)
    (f : Feature) (rest : List Feature) (e : GErr)
    (hsk : skipUnknown st = f :: rest)
    (hg : generateGeometry t f.type f.geometry = .error e) :
    getNextFeature t st = (none, some e, f :: rest)
    ∧ iterate t st = [] := by
  have h1 : getNextFeature t st = (none, some e, f :: rest) := by
    unfold getNextFeature
    rw [hsk]
    simp [hg]
  refine ⟨h1, ?_⟩
  rw [iterate_step t st none (some e) (f :: rest) h1]

/-- C6, the claim as frozen is false: with a failing POINT feature followed
by a decodable POINT feature, the failing feature is not skipped — the call
returns no feature with the iterator still at the failing feature, and
iteration never reaches the following good feature. -/
theorem mvt_error_skip_counterexample :
    getNextFeature (Trafo.make 4096 none)
        [⟨GeomType.point, some 1, []⟩, ⟨GeomType.point, some 2, [9, 5, 7]⟩] =
      (none, some .streamUnderrun,
        [⟨GeomType.point, some 1, []⟩, ⟨GeomType.point, some 2, [9, 5, 7]⟩])
    ∧ iterate (Trafo.make 4096 none)
        [⟨GeomType.point, some 1, []⟩, ⟨GeomType.point, some 2, [9, 5, 7]⟩] =
      [] :=
  mvt_error_caught_not_skipped (Trafo.make 4096 none)
    [⟨GeomType.point, some 1, []⟩, ⟨GeomType.point, some 2, [9, 5, 7]⟩]
    ⟨GeomType.point, some 1, []⟩ [⟨GeomType.point, some 2, [9, 5, 7]⟩]
    .streamUnderrun rfl rfl

theorem mvt_error_caught_not_skipped_witness :
    getNextFeature (Trafo.make 4096 none)
        [⟨GeomType.unknown, none, []⟩, ⟨GeomType.point, some 3, [1]⟩] =
      (none, some (.invalidCount 0), [⟨GeomType.point, some 3, [1]⟩])
    ∧ iterate (Trafo.make 4096 none)
        [⟨GeomType.unknown, none, []⟩, ⟨GeomType.point, some 3, [1]⟩] = [] :=
  mvt_error_caught_not_skipped (Trafo.make 4096 none)
    [⟨GeomType.unknown, none, []⟩, ⟨GeomType.point, some 3, [1]⟩]
    ⟨GeomType.point, some 3, [1]⟩ [] (.invalidCount 0) rfl rfl

/-- C1: when the POLYGON command stream decodes as a sequence of closed
rings, the builder equals the spec's orientation-driven grouping fold over
that ring sequence (`groupRings`): a clockwise ring first finalizes the open
polygon into the multi polygon (created on first need), every ring joins the
currently-open polygon (opened when none is), a counter-clockwise ring is
thus added as a hole, and at exhaustion the open polygon joins the multi
polygon when one was started, else the single polygon is returned. -/
theorem mvt_polygons_ring_grouping (t : Trafo) (s : List Nat)
    (rings : List Ring) (h : allRings t Cursor.init s = .ok rings) :
    polygons t s = .ok (groupRings rings)
    ∧ (∀ (ring : Ring) (p : Polygon) (mo : Option (List Polygon)),
        isClockwise ring = true →
          groupRingsStep (some p, mo) ring =
            (some [ring], some (mo.getD [] ++ [p])))
    ∧ (∀ (ring : Ring) (p : Polygon) (mo : Option (List Polygon)),
        isClockwise ring = false →
          groupRingsStep (some p, mo) ring = (some (p ++ [ring]), mo))
    ∧ (∀ (ring : Ring) (mo : Option (List Polygon)),
        groupRingsStep (none, mo) ring = (some [ring], mo)) := by
  refine ⟨?_, ?_, ?_, ?_⟩
  · unfold polygons groupRings
    exact polygonsLoop_spec t s Cursor.init none none rings h
  · intro ring p mo hcw
    simp [groupRingsStep, hcw]
  · intro ring p mo hcw
    simp [groupRingsStep, hcw]
  · intro ring mo
    cases hcw : isClockwise ring <;> simp [groupRingsStep, hcw]

theorem mvt_polygons_ring_grouping_witness :
    polygons (Trafo.make 4096 none)
        (encodeRings [(⟨3, (0, 0), [(4, 0), (0, 4), (4294967292, 0)]⟩, 1),
                      (⟨3, (1, 4294967293), [(0, 2), (2, 0), (0, 4294967294)]⟩, 1)]) =
      .ok (groupRings (ringsOf (Trafo.make 4096 none) Cursor.init
        [(⟨3, (0, 0), [(4, 0), (0, 4), (4294967292, 0)]⟩, 1),
         (⟨3, (1, 4294967293), [(0, 2), (2, 0), (0, 4294967294)]⟩, 1)])) :=
  (mvt_polygons_ring_grouping (Trafo.make 4096 none) _ _
    (allRings_encode (Trafo.make 4096 none)
      [(⟨3, (0, 0), [(4, 0), (0, 4), (4294967292, 0)]⟩, 1),
       (⟨3, (1, 4294967293), [(0, 2), (2, 0), (0, 4294967294)]⟩, 1)]
      Cursor.init (by decide))).1

/-- C4: each line string needs MoveTo with count exactly one (anything else
fails with InvalidCount) then LineTo with count k ≥ 1 (zero fails with
InvalidCount), and decodes to k + 1 coordinates starting at the
MoveTo-shifted point; the builder loops until exhaustion, returning a single
LineString for one decoded string and a MultiLineString of all of them in
decode order otherwise. -/
theorem mvt_linestrings_builder (t : Trafo) (m dx dy : Nat) (rest : List Nat)
    (seg : Segment) (segs : List Segment) :
    (m ≠ 1 →
      lineStrings t ((opMoveTo + 8 * m) :: rest) = .error (.invalidCount m))
    ∧ lineStrings t
        ((opMoveTo + 8 * 1) :: dx :: dy :: (opLineTo + 8 * 0) :: rest) =
        .error (.invalidCount 0)
    ∧ (seg.wf →
        lineStrings t (encodeSegment seg) =
          .ok (some (.lineString (segPoints t Cursor.init seg)))
        ∧ (segPoints t Cursor.init seg).length = seg.k + 1
        ∧ (segPoints t Cursor.init seg).head? =
            some (mkPoint t (applyShift Cursor.init seg.d0)))
    ∧ (2 ≤ segs.length → (∀ x ∈ segs, x.wf) →
        lineStrings t (encodeSegments segs) =
          .ok (some (.multiLineString (stringsOf t Cursor.init segs)))
        ∧ (stringsOf t Cursor.init segs).length = segs.length
        ∧ ∀ i (hi : i < segs.length),
            (stringsOf t Cursor.init segs)[i]? =
              some (segPoints t (segsCursor Cursor.init (segs.take i))
                (segs.get ⟨i, hi⟩))
            ∧ (segPoints t (segsCursor Cursor.init (segs.take i))
                (segs.get ⟨i, hi⟩)).length = (segs.get ⟨i, hi⟩).k + 1
            ∧ (segPoints t (segsCursor Cursor.init (segs.take i))
                (segs.get ⟨i, hi⟩)).head? =
              some (mkPoint t
                (applyShift (segsCursor Cursor.init (segs.take i))
                  (segs.get ⟨i, hi⟩).d0))) := by
  refine ⟨fun hm => ?_, ?_, fun hwf => ?_, fun hlen hwf => ?_⟩
  · exact lineStrings_step_error t _ _ (by simp)
      (singleLineString_moveTo_bad t false Cursor.init m rest hm)
  · exact lineStrings_step_error t _ _ (by simp)
      (singleLineString_lineTo_zero t false Cursor.init dx dy rest)
  · have henc : encodeSegments [seg] = encodeSegment seg := by
      simp [encodeSegments]
    have hall := allLineStrings_encode t [seg] Cursor.init (by simpa using hwf)
    rw [henc] at hall
    have hd := lineStrings_decomp t _ _ hall
    exact ⟨by simpa [stringsOf] using hd,
      segPoints_length t Cursor.init seg hwf, segPoints_head t Cursor.init seg⟩
  · have hall := allLineStrings_encode t segs Cursor.init hwf
    have hlen2 := stringsOf_length t segs Cursor.init
    refine ⟨?_, hlen2, fun i hi =>
      ⟨stringsOf_getElem t segs Cursor.init i hi,
       segPoints_length t _ _ (hwf _ (segs.get_mem i hi)),
       segPoints_head t _ _⟩⟩
    obtain ⟨a, l1, hS⟩ : ∃ a l1, stringsOf t Cursor.init segs = a :: l1 := by
      cases hS : stringsOf t Cursor.init segs with
      | nil =>
          rw [hS] at hlen2
          simp at hlen2
          omega
      | cons a l1 => exact ⟨a, l1, rfl⟩
    obtain ⟨b, l2, hS2⟩ : ∃ b l2, l1 = b :: l2 := by
      cases h2 : l1 with
      | nil =>
          rw [hS, h2] at hlen2
          simp at hlen2
          omega
      | cons b l2 => exact ⟨b, l2, rfl⟩
    rw [hS, hS2] at hall
    have hd2 := lineStrings_decomp t _ _ hall
    rw [hS, hS2]
    exact hd2

theorem mvt_linestrings_builder_witness :
    lineStrings (Trafo.make 4096 none)
        (encodeSegments [⟨1, (1, 1), [(2, 2)]⟩, ⟨2, (1, 1), [(2, 2), (3, 3)]⟩]) =
      .ok (some (.multiLineString (stringsOf (Trafo.make 4096 none) Cursor.init
        [⟨1, (1, 1), [(2, 2)]⟩, ⟨2, (1, 1), [(2, 2), (3, 3)]⟩])))
    ∧ (stringsOf (Trafo.make 4096 none) Cursor.init
        [⟨1, (1, 1), [(2, 2)]⟩, ⟨2, (1, 1), [(2, 2), (3, 3)]⟩]).length = 2
    ∧ ∀ i (hi : i < ([⟨1, (1, 1), [(2, 2)]⟩,
          ⟨2, (1, 1), [(2, 2), (3, 3)]⟩] : List Segment).length),
        (stringsOf (Trafo.make 4096 none) Cursor.init
          [⟨1, (1, 1), [(2, 2)]⟩, ⟨2, (1, 1), [(2, 2), (3, 3)]⟩])[i]? =
          some (segPoints (Trafo.make 4096 none)
            (segsCursor Cursor.init
              (([⟨1, (1, 1), [(2, 2)]⟩,
                 ⟨2, (1, 1), [(2, 2), (3, 3)]⟩] : List Segment).take i))
            (([⟨1, (1, 1), [(2, 2)]⟩,
               ⟨2, (1, 1), [(2, 2), (3, 3)]⟩] : List Segment).get ⟨i, hi⟩))
        ∧ (segPoints (Trafo.make 4096 none)
            (segsCursor Cursor.init
              (([⟨1, (1, 1), [(2, 2)]⟩,
                 ⟨2, (1, 1), [(2, 2), (3, 3)]⟩] : List Segment).take i))
            (([⟨1, (1, 1), [(2, 2)]⟩,
               ⟨2, (1, 1), [(2, 2), (3, 3)]⟩] : List Segment).get ⟨i, hi⟩)).length =
          (([⟨1, (1, 1), [(2, 2)]⟩,
             ⟨2, (1, 1), [(2, 2), (3, 3)]⟩] : List Segment).get ⟨i, hi⟩).k + 1
        ∧ (segPoints (Trafo.make 4096 none)
            (segsCursor Cursor.init
              (([⟨1, (1, 1), [(2, 2)]⟩,
                 ⟨2, (1, 1), [(2, 2), (3, 3)]⟩] : List Segment).take i))
            (([⟨1, (1, 1), [(2, 2)]⟩,
               ⟨2, (1, 1), [(2, 2), (3, 3)]⟩] : List Segment).get ⟨i, hi⟩)).head? =
          some (mkPoint (Trafo.make 4096 none)
            (applyShift (segsCursor Cursor.init
              (([⟨1, (1, 1), [(2, 2)]⟩,
                 ⟨2, (1, 1), [(2, 2), (3, 3)]⟩] : List Segment).take i))
              (([⟨1, (1, 1), [(2, 2)]⟩,
                 ⟨2, (1, 1), [(2, 2), (3, 3)]⟩] : List Segment).get ⟨i, hi⟩).d0)) :=
  (mvt_linestrings_builder (Trafo.make 4096 none) 0 0 0 [] ⟨1, (0, 0), []⟩
    [⟨1, (1, 1), [(2, 2)]⟩, ⟨2, (1, 1), [(2, 2), (3, 3)]⟩]).2.2.2
    (by decide) (by decide)

/-- C7: with every non-Unknown feature's geometry decoding successfully,
iteration yields exactly the non-Unknown features, materialized in
declaration order; a reset re-iteration reproduces that same sequence; the
cursor reports no feature once exhausted; and the feature count is the
declared total, Unknown-typed features included. -/
theorem mvt_layer_iteration (t : Trafo) (l : Layer)
    (h : ∀ f ∈ l.features, f.type ≠ GeomType.unknown →
      (generateGeometry t f.type f.geometry).isOk = true) :
    iterate t (resetReading l) =
      (l.features.filter (fun f => f.type != GeomType.unknown)).map
        (materialize t)
    ∧ getFeatureCount l = l.features.length
    ∧ iterate t (resetReading l) = iterate t l.features
    ∧ getNextFeature t [] = (none, none, []) :=
  ⟨iterate_filter_map t l.features h, rfl, rfl, rfl⟩

theorem mvt_layer_iteration_witness :
    iterate (Trafo.make 4096 none)
      (resetReading ⟨[⟨GeomType.unknown, none, []⟩,
                      ⟨GeomType.point, some 1, [9, 5, 7]⟩,
                      ⟨GeomType.unknown, none, []⟩,
                      ⟨GeomType.point, some 2, [9, 6, 8]⟩]⟩) =
      (([⟨GeomType.unknown, none, []⟩,
         ⟨GeomType.point, some 1, [9, 5, 7]⟩,
         ⟨GeomType.unknown, none, []⟩,
         ⟨GeomType.point, some 2, [9, 6, 8]⟩] : List Feature).filter
        (fun f => f.type != GeomType.unknown)).map
        (materialize (Trafo.make 4096 none))
    ∧ getFeatureCount ⟨[⟨GeomType.unknown, none, []⟩,
                        ⟨GeomType.point, some 1, [9, 5, 7]⟩,
                        ⟨GeomType.unknown, none, []⟩,
                        ⟨GeomType.point, some 2, [9, 6, 8]⟩]⟩ =
      ([⟨GeomType.unknown, none, []⟩,
        ⟨GeomType.point, some 1, [9, 5, 7]⟩,
        ⟨GeomType.unknown, none, []⟩,
        ⟨GeomType.point, some 2, [9, 6, 8]⟩] : List Feature).length
    ∧ iterate (Trafo.make 4096 none)
        (resetReading ⟨[⟨GeomType.unknown, none, []⟩,
                        ⟨GeomType.point, some 1, [9, 5, 7]⟩,
                        ⟨GeomType.unknown, none, []⟩,
                        ⟨GeomType.point, some 2, [9, 6, 8]⟩]⟩) =
      iterate (Trafo.make 4096 none)
        [⟨GeomType.unknown, none, []⟩,
         ⟨GeomType.point, some 1, [9, 5, 7]⟩,
         ⟨GeomType.unknown, none, []⟩,
         ⟨GeomType.point, some 2, [9, 6, 8]⟩]
    ∧ getNextFeature (Trafo.make 4096 none) [] = (none, none, []) :=
  mvt_layer_iteration (Trafo.make 4096 none)
    ⟨[⟨GeomType.unknown, none, []⟩,
      ⟨GeomType.point, some 1, [9, 5, 7]⟩,
      ⟨GeomType.unknown, none, []⟩,
      ⟨GeomType.point, some 2, [9, 6, 8]⟩]⟩ (by decide)

/-- C9: the blend engine's output pixel equals the accumulated
Σ(weight · sample) over the sources hitting the pixel's block intersection,
divided by the accumulated Σweight with a zero total clamped to one — so a
pixel covered by no source yields the background value 0 and never a division
by zero. -/
theorem blend_pixel_normalization (ov : Blend.Overlap) (block : Blend.Rect)
    (bands : List Blend.SourceBand) (px py : ℤ) :
    Blend.readBlockPixel ov block bands px py =
      (bands.map (fun b => (Blend.contribution ov block b px py).1)).sum /
        (if (bands.map
              (fun b => (Blend.contribution ov block b px py).2)).sum = 0
         then 1
         else (bands.map
              (fun b => (Blend.contribution ov block b px py).2)).sum)
    ∧ ((∀ b ∈ bands,
          (block.containsPt px py && b.extents.containsPt px py) = false) →
        Blend.readBlockPixel ov block bands px py = 0) := by
  have hmain : Blend.readBlockPixel ov block bands px py =
      (bands.map (fun b => (Blend.contribution ov block b px py).1)).sum /
        (if (bands.map
              (fun b => (Blend.contribution ov block b px py).2)).sum = 0
         then 1
         else (bands.map
              (fun b => (Blend.contribution ov block b px py).2)).sum) := by
    unfold Blend.readBlockPixel
    rw [blend_accumulate_eq_sum ov block px py bands (0, 0)]
    simp
  refine ⟨hmain, fun hcov => ?_⟩
  have h1 : ∀ q ∈ bands.map
      (fun b => (Blend.contribution ov block b px py).1), q = 0 := by
    intro q hq
    simp only [List.mem_map] at hq
    obtain ⟨b, hb, hqe⟩ := hq
    rw [← hqe]
    simp [Blend.contribution, hcov b hb]
  have h2 : ∀ q ∈ bands.map
      (fun b => (Blend.contribution ov block b px py).2), q = 0 := by
    intro q hq
    simp only [List.mem_map] at hq
    obtain ⟨b, hb, hqe⟩ := hq
    rw [← hqe]
    simp [Blend.contribution, hcov b hb]
  rw [hmain, List.sum_eq_zero h1, List.sum_eq_zero h2]
  simp

theorem blend_pixel_normalization_witness :
    Blend.readBlockPixel ⟨0, 0⟩ ⟨0, 0, 2, 2⟩
      [⟨⟨10, 10, 1, 1⟩, ⟨10, 10, 1, 1⟩, true, fun _ _ => 5, fun _ _ => 1⟩]
      0 0 = 0 :=
  (blend_pixel_normalization ⟨0, 0⟩ ⟨0, 0, 2, 2⟩
    [⟨⟨10, 10, 1, 1⟩, ⟨10, 10, 1, 1⟩, true, fun _ _ => 5, fun _ _ => 1⟩]
    0 0).2 (by decide)

/-- C7, the claim as frozen is false without a decodability proviso: a layer
whose single feature is a POINT with an empty command stream has one
non-Unknown feature, yet iteration yields no feature at all (the decode fails
and the cursor never passes it). -/
theorem mvt_layer_iteration_counterexample :
    iterate (Trafo.make 4096 none) [⟨GeomType.point, some 9, []⟩] = []
    ∧ (([⟨GeomType.point, some 9, []⟩] : List Feature).filter
        (fun f => f.type != GeomType.unknown)).length = 1 := by
  constructor
  · have h : getNextFeature (Trafo.make 4096 none)
        [⟨GeomType.point, some 9, []⟩] =
        (none, some .streamUnderrun, [⟨GeomType.point, some 9, []⟩]) := rfl
    rw [iterate_step (Trafo.make 4096 none) _ none (some .streamUnderrun)
      [⟨GeomType.point, some 9, []⟩] h]
  · rfl

end GdalDrivers
